import Mathlib

/-!
Shallow embedding of the diploid hidden Markov model in `src/DiploidHMM.py`.

Arrays are embedded as total functions from natural-number indices to ℚ,
together with explicit dimensions; every loop of the source becomes a
`Finset.range` sum or a structural recursion over the locus index.
Floating-point arithmetic is modelled exactly over ℚ; integer codes
(alleles 0/1, genotype 0/1/2, missing 9) are ℕ.
-/

/-- Sum of an `nPat × nMat` slice, as in `np.sum(array[i,:,:])`. -/
def sliceSum (nPat nMat : ℕ) (s : ℕ → ℕ → ℚ) : ℚ :=
  ∑ j ∈ Finset.range nPat, ∑ k ∈ Finset.range nMat, s j k

/-- Sum over a whole `nLoci × nPat × nMat` tensor, as in `np.sum(combined[:,:])`
in `diploid_forward` (DiploidHMM.py line 329), which sums over every locus. -/
def totalSum (nLoci nPat nMat : ℕ) (a : ℕ → ℕ → ℕ → ℚ) : ℚ :=
  ∑ i ∈ Finset.range nLoci, sliceSum nPat nMat (a i)

/-- Paternal marginal `pat[j]` accumulated in `transmit`
(DiploidHMM.py lines 288-293): the row sum over the maternal index. -/
def patMarginal (nMat : ℕ) (prev : ℕ → ℕ → ℚ) (j : ℕ) : ℚ :=
  ∑ k ∈ Finset.range nMat, prev j k

/-- Maternal marginal `mat[k]` accumulated in `transmit`
(DiploidHMM.py lines 288-293): the column sum over the paternal index. -/
def matMarginal (nPat : ℕ) (prev : ℕ → ℕ → ℚ) (k : ℕ) : ℚ :=
  ∑ j ∈ Finset.range nPat, prev j k

/-- Transmission operator `transmit` (DiploidHMM.py lines 269-308).
The source computes `pat *= e1e/n_pat`, `mat *= e1e/n_mat`, `e2 = e*e/(n_mat*n_pat)` and
`output[j,k] = previous_estimate[j,k]*(1-e)**2 + pat[j] + mat[k] + e2`. -/
def transmit (nPat nMat : ℕ) (previous_estimate : ℕ → ℕ → ℚ) (e : ℚ) (j k : ℕ) : ℚ :=
  previous_estimate j k * (1 - e)^2
    + patMarginal nMat previous_estimate j * ((1 - e) * e / (nPat : ℚ))
    + matMarginal nPat previous_estimate k * ((1 - e) * e / (nMat : ℚ))
    + e * e / ((nMat : ℚ) * (nPat : ℚ))

/-- Transmission operator as the specification states it (spec §4.2): the
single-recombination term with divisor `nPat` is scaled by the *maternal* marginal of the
input and the term with divisor `nMat` by the *paternal* marginal.  Declared separately,
following the spec's words, for comparison with the source's `transmit`. -/
def transmitSpec (nPat nMat : ℕ) (previous_estimate : ℕ → ℕ → ℚ) (e : ℚ) (j k : ℕ) : ℚ :=
  previous_estimate j k * (1 - e)^2
    + matMarginal nPat previous_estimate k * ((1 - e) * e / (nPat : ℚ))
    + patMarginal nMat previous_estimate j * ((1 - e) * e / (nMat : ℚ))
    + e * e / ((nPat : ℚ) * (nMat : ℚ))

/-- Emission ("point") estimates from called genotypes, `getDiploidPointEstimates`
(DiploidHMM.py lines 100-129).  The tensor is initialised to 1 and a locus is only
written when its genotype is non-missing (`indGeno[i] != 9`); within such a locus the
phased branch is taken when both phased observations are non-missing, otherwise the
unphased genotype-sum branch. -/
def getDiploidPointEstimates (indGeno indPatHap indMatHap : ℕ → ℕ)
    (paternalHaplotypes maternalHaplotypes : ℕ → ℕ → ℕ) (error : ℕ → ℚ)
    (i j k : ℕ) : ℚ :=
  if indGeno i ≠ 9 then
    if indPatHap i ≠ 9 ∧ indMatHap i ≠ 9 then
      (if indPatHap i = paternalHaplotypes j i then 1 - error i else error i) *
        (if indMatHap i = maternalHaplotypes k i then 1 - error i else error i)
    else
      if paternalHaplotypes j i + maternalHaplotypes k i = indGeno i then
        1 - error i * error i
      else
        error i * error i
  else 1

/-- Forward pass `diploid_forward` (DiploidHMM.py lines 311-341), value of
`combined[i,:,:]` at cell `(j,k)`.  Locus 0 is divided by `np.sum(combined[:,:])`,
the sum over the whole tensor (all loci), exactly as line 329 of the source does;
each later locus is the emission times the transmitted previous locus, divided by
its own slice sum. -/
def diploid_forward (nLoci nPat nMat : ℕ) (point_estimate : ℕ → ℕ → ℕ → ℚ)
    (recombination_rate : ℕ → ℚ) : ℕ → ℕ → ℕ → ℚ
  | 0 => fun j k => point_estimate 0 j k / totalSum nLoci nPat nMat point_estimate
  | i + 1 => fun j k =>
      point_estimate (i + 1) j k *
          transmit nPat nMat (diploid_forward nLoci nPat nMat point_estimate recombination_rate i)
            (recombination_rate (i + 1)) j k /
        sliceSum nPat nMat (fun a b =>
          point_estimate (i + 1) a b *
            transmit nPat nMat (diploid_forward nLoci nPat nMat point_estimate recombination_rate i)
              (recombination_rate (i + 1)) a b)

/-- Backward pass helper: `backwardAux d` is `backward[nLoci-1-d]` from
`diploid_backward` (DiploidHMM.py lines 344-367).  Distance `d = 0` is the last locus,
identically 1; each step combines the next locus's backward value with its emission,
normalizes, and transmits it with the recombination rate of the current locus. -/
def backwardAux (nLoci nPat nMat : ℕ) (point_estimate : ℕ → ℕ → ℕ → ℚ)
    (recombination_rate : ℕ → ℚ) : ℕ → ℕ → ℕ → ℚ
  | 0 => fun _ _ => 1
  | d + 1 =>
      transmit nPat nMat
        (fun j k =>
          backwardAux nLoci nPat nMat point_estimate recombination_rate d j k *
              point_estimate (nLoci - 1 - d) j k /
            sliceSum nPat nMat (fun a b =>
              backwardAux nLoci nPat nMat point_estimate recombination_rate d a b *
                point_estimate (nLoci - 1 - d) a b))
        (recombination_rate (nLoci - 2 - d))

/-- Backward value at locus `i` (`diploid_backward`, DiploidHMM.py lines 344-367). -/
def diploid_backward (nLoci nPat nMat : ℕ) (point_estimate : ℕ → ℕ → ℕ → ℚ)
    (recombination_rate : ℕ → ℚ) (i : ℕ) : ℕ → ℕ → ℚ :=
  backwardAux nLoci nPat nMat point_estimate recombination_rate (nLoci - 1 - i)

/-- Forward-backward posterior `diploidForwardBackward` (DiploidHMM.py lines 370-386):
elementwise product of the backward and (in-place) forward passes, with each locus
slice divided by its own sum (`est[i,:,:] /= np.sum(est[i,:,:])`). -/
def diploidForwardBackward (nLoci nPat nMat : ℕ) (point_estimate : ℕ → ℕ → ℕ → ℚ)
    (recombination_rate : ℕ → ℚ) (i j k : ℕ) : ℚ :=
  diploid_backward nLoci nPat nMat point_estimate recombination_rate i j k *
      diploid_forward nLoci nPat nMat point_estimate recombination_rate i j k /
    sliceSum nPat nMat (fun a b =>
      diploid_backward nLoci nPat nMat point_estimate recombination_rate i a b *
        diploid_forward nLoci nPat nMat point_estimate recombination_rate i a b)

/-- Dosage decoder `getDiploidDosages` (DiploidHMM.py lines 68-77): reads the posterior
as `hapEst[i,j,k]` (locus-leading axis order). -/
def getDiploidDosages (nPat nMat : ℕ) (hapEst : ℕ → ℕ → ℕ → ℚ)
    (paternalHaplotypes maternalHaplotypes : ℕ → ℕ → ℕ) (i : ℕ) : ℚ :=
  ∑ j ∈ Finset.range nPat, ∑ k ∈ Finset.range nMat,
    hapEst i j k * ((paternalHaplotypes j i : ℚ) + (maternalHaplotypes k i : ℚ))

/-- Genotype-class probability decoder `getDiploidProbabilities`
(DiploidHMM.py lines 79-98): embedded exactly as written, reading `hapEst[j, k, i]`
(axis order pat, mat, locus), although the posterior produced by
`diploidForwardBackward` is laid out (locus, pat, mat). -/
def getDiploidProbabilities (nPat nMat : ℕ) (hapEst : ℕ → ℕ → ℕ → ℚ)
    (paternalHaplotypes maternalHaplotypes : ℕ → ℕ → ℕ) (c i : ℕ) : ℚ :=
  if c = 0 then
    ∑ j ∈ Finset.range nPat, ∑ k ∈ Finset.range nMat,
      if paternalHaplotypes j i = 0 ∧ maternalHaplotypes k i = 0 then hapEst j k i else 0
  else if c = 1 then
    ∑ j ∈ Finset.range nPat, ∑ k ∈ Finset.range nMat,
      if paternalHaplotypes j i = 0 ∧ maternalHaplotypes k i = 1 then hapEst j k i else 0
  else if c = 2 then
    ∑ j ∈ Finset.range nPat, ∑ k ∈ Finset.range nMat,
      if paternalHaplotypes j i = 1 ∧ maternalHaplotypes k i = 0 then hapEst j k i else 0
  else if c = 3 then
    ∑ j ∈ Finset.range nPat, ∑ k ∈ Finset.range nMat,
      if paternalHaplotypes j i = 1 ∧ maternalHaplotypes k i = 1 then hapEst j k i else 0
  else 0

/-- Genotype-class decoder as the specification states it (spec §4.4): for each locus
`i`, accumulate the posterior mass *at locus i* — i.e. read the posterior tensor with
the locus as the leading axis, `hapEst i j k`.  Declared separately, following the
spec's words, for comparison with the source's `getDiploidProbabilities`. -/
def getDiploidProbabilitiesSpec (nPat nMat : ℕ) (hapEst : ℕ → ℕ → ℕ → ℚ)
    (paternalHaplotypes maternalHaplotypes : ℕ → ℕ → ℕ) (c i : ℕ) : ℚ :=
  if c = 0 then
    ∑ j ∈ Finset.range nPat, ∑ k ∈ Finset.range nMat,
      if paternalHaplotypes j i = 0 ∧ maternalHaplotypes k i = 0 then hapEst i j k else 0
  else if c = 1 then
    ∑ j ∈ Finset.range nPat, ∑ k ∈ Finset.range nMat,
      if paternalHaplotypes j i = 0 ∧ maternalHaplotypes k i = 1 then hapEst i j k else 0
  else if c = 2 then
    ∑ j ∈ Finset.range nPat, ∑ k ∈ Finset.range nMat,
      if paternalHaplotypes j i = 1 ∧ maternalHaplotypes k i = 0 then hapEst i j k else 0
  else if c = 3 then
    ∑ j ∈ Finset.range nPat, ∑ k ∈ Finset.range nMat,
      if paternalHaplotypes j i = 1 ∧ maternalHaplotypes k i = 1 then hapEst i j k else 0
  else 0

/-- Additive corrective kernel built by `combine_backward_sampled_value`
(DiploidHMM.py lines 476-497) before the elementwise multiplication by the previous
estimate: uniform `e*e/(n_mat*n_pat)` everywhere, `single_rec/n_mat` on the row of the
sampled paternal index, `single_rec/n_pat` on the column of the sampled maternal index,
and `no_rec = (1-e)**2` at the sampled pair itself. -/
def backwardSampledKernel (nPat nMat patHap matHap : ℕ) (e : ℚ) (j k : ℕ) : ℚ :=
  e * e / ((nMat : ℚ) * (nPat : ℚ))
    + (if j = patHap then (1 - e) * e / (nMat : ℚ) else 0)
    + (if k = matHap then (1 - e) * e / (nPat : ℚ) else 0)
    + (if j = patHap ∧ k = matHap then (1 - e)^2 else 0)

/-- Sampler combination step `combine_backward_sampled_value`
(DiploidHMM.py lines 462-501): the additive kernel multiplied elementwise by the
previous (forward-combined) estimate, `output *= previous_estimate`. -/
def combine_backward_sampled_value (nPat nMat : ℕ) (previous_estimate : ℕ → ℕ → ℚ)
    (patHap matHap : ℕ) (e : ℚ) (j k : ℕ) : ℚ :=
  backwardSampledKernel nPat nMat patHap matHap e j k * previous_estimate j k

/-- Sampling weights `pvals` used at locus `i` inside `diploidOneSample`
(DiploidHMM.py lines 406-437), given the indices already sampled at later loci as
oracle functions (the actual draw is `NumbaUtils.multinomial_sample_2d`, outside this
file's source): at the last locus the forward-combined slice itself, otherwise
`combine_backward_sampled_value(forward_probs[i], pat[i+1], mat[i+1], rate[i+1])`. -/
def diploidOneSample_pvals (nLoci nPat nMat : ℕ) (forward_probs : ℕ → ℕ → ℕ → ℚ)
    (recombination_rate : ℕ → ℚ) (patIdx matIdx : ℕ → ℕ) (i : ℕ) : ℕ → ℕ → ℚ :=
  if i = nLoci - 1 then forward_probs i
  else
    combine_backward_sampled_value nPat nMat (forward_probs i)
      (patIdx (i + 1)) (matIdx (i + 1)) (recombination_rate (i + 1))

/-- Computation steps performed by the entry point `diploidHMM`
(DiploidHMM.py lines 7-58), in execution order. -/
inductive HMMStep
  | emission
  | forwardBackward
  | dosages
  | probabilities
deriving DecidableEq

/-- Entry point `diploidHMM` (DiploidHMM.py lines 7-58) with `useCalledHaps = True`.
The point estimates (line 30) and the forward-backward posterior (line 41) are computed
unconditionally before the calling-method dispatch of lines 47-58, so every branch's
step trace starts with those two steps; `callhaps` and `viterbi` then raise a
`ValueError` (lines 55-58) and produce no output. -/
def diploidHMM (nLoci nPat nMat : ℕ) (genotypes patHapObs matHapObs : ℕ → ℕ)
    (patLib matLib : ℕ → ℕ → ℕ) (error recombinationRate : ℕ → ℚ)
    (callingMethod : String) :
    List HMMStep × Except String (Option (ℕ → ℚ) × Option (ℕ → ℕ → ℚ)) :=
  let pointEst := getDiploidPointEstimates genotypes patHapObs matHapObs patLib matLib error
  let hapEst := diploidForwardBackward nLoci nPat nMat pointEst recombinationRate
  if callingMethod = "dosages" then
    ([HMMStep.emission, HMMStep.forwardBackward, HMMStep.dosages],
      Except.ok (some (getDiploidDosages nPat nMat hapEst patLib matLib), none))
  else if callingMethod = "probabilities" then
    ([HMMStep.emission, HMMStep.forwardBackward, HMMStep.probabilities],
      Except.ok (none, some (getDiploidProbabilities nPat nMat hapEst patLib matLib)))
  else if callingMethod = "callhaps" then
    ([HMMStep.emission, HMMStep.forwardBackward],
      Except.error "callhaps not yet implimented.")
  else if callingMethod = "viterbi" then
    ([HMMStep.emission, HMMStep.forwardBackward],
      Except.error "Viterbi not yet implimented.")
  else
    ([HMMStep.emission, HMMStep.forwardBackward], Except.ok (none, none))

/-- Concrete 1×2 input distribution with all mass at cell (0,1), used for C1. -/
def prevC1 : ℕ → ℕ → ℚ := fun j k => if j = 0 ∧ k = 1 then 1 else 0

/-- Concrete all-ones emission tensor, used for C2. -/
def peC2 : ℕ → ℕ → ℕ → ℚ := fun _ _ _ => 1

/-- C1: the claim states the transmission output at (j,k) is
`(1-e)^2·input(j,k) + maternalMarginal[k]·(1-e)e/nPat + paternalMarginal[j]·(1-e)e/nMat
+ e^2/(nPat·nMat)`.  The source instead attaches `(1-e)e/nPat` to the paternal marginal
and `(1-e)e/nMat` to the maternal marginal.  At nPat=1, nMat=2 with all input mass at
(0,1) and e=1/2, the source's `transmit` gives 3/8 at cell (0,0) where the claimed
formula gives 1/4; moreover the source's output sums to 9/8 over the grid (while the
input summed to 1), so it does not preserve probability mass when nPat ≠ nMat. -/
theorem C1_transmit_divergence :
    transmit 1 2 prevC1 (1/2) 0 0 = 3/8 ∧
      transmitSpec 1 2 prevC1 (1/2) 0 0 = 1/4 ∧
      sliceSum 1 2 prevC1 = 1 ∧
      sliceSum 1 2 (transmit 1 2 prevC1 (1/2)) = 9/8 := by
  refine ⟨?_, ?_, ?_, ?_⟩ <;>
    norm_num [transmit, transmitSpec, sliceSum, patMarginal, matMarginal, prevC1,
      Finset.sum_range_succ, Finset.filter_eq', Finset.mem_singleton]

/-- C2: the claim states the locus-0 slice of `diploid_forward`'s output equals
`emission[0]` divided by the sum of `emission[0]` alone, hence sums to 1.  The source
divides by `np.sum(combined[:,:])`, the sum over the whole tensor: with nLoci=2,
nPat=nMat=1 and emission identically 1 (locus-0 slice sum 1 > 0), the locus-0 output
value is 1/2 and the locus-0 slice sums to 1/2, not 1. -/
theorem C2_locus0_normalization_bug :
    diploid_forward 2 1 1 peC2 (fun _ => 0) 0 0 0 = 1/2 ∧
      sliceSum 1 1 (diploid_forward 2 1 1 peC2 (fun _ => 0) 0) = 1/2 := by
  refine ⟨?_, ?_⟩ <;>
    norm_num [diploid_forward, totalSum, sliceSum, peC2, Finset.sum_range_succ]

/-- C3: at any locus whose final normalizing sum (the slice sum of backward times
forward at that locus, the divisor used by `est[i,:,:] /= np.sum(est[i,:,:])`) is
nonzero, the posterior slice returned by `diploidForwardBackward` sums exactly to 1.
The claim's hypothesis that no normalizing sum along the way is zero implies this
hypothesis; the floating-point tolerance clause is subsumed by exact ℚ arithmetic. -/
theorem C3_posterior_normalized (nLoci nPat nMat : ℕ) (point_estimate : ℕ → ℕ → ℕ → ℚ)
    (recombination_rate : ℕ → ℚ) (i : ℕ)
    (h : sliceSum nPat nMat (fun a b =>
        diploid_backward nLoci nPat nMat point_estimate recombination_rate i a b *
          diploid_forward nLoci nPat nMat point_estimate recombination_rate i a b) ≠ 0) :
    sliceSum nPat nMat
      (diploidForwardBackward nLoci nPat nMat point_estimate recombination_rate i) = 1 := by
  unfold diploidForwardBackward sliceSum at *
  simp only [← Finset.sum_div]
  exact div_self h

/-- Witness for C3 at nLoci = nPat = nMat = 1 with emission identically 1 and
recombination rate 0. -/
theorem C3_witness :
    sliceSum 1 1 (fun a b =>
        diploid_backward 1 1 1 (fun _ _ _ => 1) (fun _ => 0) 0 a b *
          diploid_forward 1 1 1 (fun _ _ _ => 1) (fun _ => 0) 0 a b) ≠ 0 ∧
      sliceSum 1 1 (diploidForwardBackward 1 1 1 (fun _ _ _ => 1) (fun _ => 0) 0) = 1 := by
  have h : sliceSum 1 1 (fun a b =>
      diploid_backward 1 1 1 (fun _ _ _ => 1) (fun _ => 0) 0 a b *
        diploid_forward 1 1 1 (fun _ _ _ => 1) (fun _ => 0) 0 a b) ≠ 0 := by
    norm_num [sliceSum, diploid_backward, backwardAux, diploid_forward, totalSum,
      Finset.sum_range_succ]
  exact ⟨h, C3_posterior_normalized 1 1 1 _ _ 0 h⟩

/-- C4 counterexample: the claim states that calling `diploidHMM` with calling method
"viterbi" (or "callhaps") fails before any computation is performed.  At a concrete
input the call does produce the "not implimented" error, but its step trace shows the
emission construction and the forward-backward recursion were performed first
(DiploidHMM.py lines 30 and 41 precede the dispatch at lines 47-58). -/
theorem C4_counterexample :
    (diploidHMM 1 1 1 (fun _ => 9) (fun _ => 9) (fun _ => 9) (fun _ _ => 0) (fun _ _ => 0)
        (fun _ => 0) (fun _ => 0) "viterbi").2 =
        Except.error "Viterbi not yet implimented." ∧
      (diploidHMM 1 1 1 (fun _ => 9) (fun _ => 9) (fun _ => 9) (fun _ _ => 0) (fun _ _ => 0)
        (fun _ => 0) (fun _ => 0) "viterbi").1 =
        [HMMStep.emission, HMMStep.forwardBackward] :=
  ⟨rfl, rfl⟩

/-- C4 amended: calling `diploidHMM` with callingMethod "callhaps" or "viterbi" does
fail with the corresponding "not yet implimented" ValueError and produces no output,
but only after the emission construction and the forward-backward recursion have been
performed; no decoding step runs. -/
theorem C4_amended_late_error (nLoci nPat nMat : ℕ) (genotypes patHapObs matHapObs : ℕ → ℕ)
    (patLib matLib : ℕ → ℕ → ℕ) (error recombinationRate : ℕ → ℚ) (cm : String)
    (h : cm = "callhaps" ∨ cm = "viterbi") :
    (diploidHMM nLoci nPat nMat genotypes patHapObs matHapObs patLib matLib error
        recombinationRate cm).1 = [HMMStep.emission, HMMStep.forwardBackward] ∧
      ((diploidHMM nLoci nPat nMat genotypes patHapObs matHapObs patLib matLib error
          recombinationRate cm).2 = Except.error "callhaps not yet implimented." ∨
        (diploidHMM nLoci nPat nMat genotypes patHapObs matHapObs patLib matLib error
          recombinationRate cm).2 = Except.error "Viterbi not yet implimented.") := by
  rcases h with h | h
  · subst h
    exact ⟨rfl, Or.inl rfl⟩
  · subst h
    exact ⟨rfl, Or.inr rfl⟩

/-- Witness for C4's amended statement at a concrete input with "callhaps". -/
theorem C4_witness :
    ("callhaps" = "callhaps" ∨ "callhaps" = "viterbi") ∧
      ((diploidHMM 1 1 1 (fun _ => 9) (fun _ => 9) (fun _ => 9) (fun _ _ => 0) (fun _ _ => 0)
          (fun _ => 0) (fun _ => 0) "callhaps").1 =
          [HMMStep.emission, HMMStep.forwardBackward] ∧
        ((diploidHMM 1 1 1 (fun _ => 9) (fun _ => 9) (fun _ => 9) (fun _ _ => 0) (fun _ _ => 0)
            (fun _ => 0) (fun _ => 0) "callhaps").2 =
            Except.error "callhaps not yet implimented." ∨
          (diploidHMM 1 1 1 (fun _ => 9) (fun _ => 9) (fun _ => 9) (fun _ _ => 0) (fun _ _ => 0)
            (fun _ => 0) (fun _ => 0) "callhaps").2 =
            Except.error "Viterbi not yet implimented.")) :=
  ⟨Or.inl rfl,
    C4_amended_late_error 1 1 1 _ _ _ _ _ _ _ "callhaps" (Or.inl rfl)⟩

/-- Emission tensor used for the C5 failing input: locus-0 slice [[1,2],[3,4]] and
locus-1 slice [[5,1],[1,1]]. -/
def peC5 : ℕ → ℕ → ℕ → ℚ := fun i j k =>
  if i = 0 then (if j = 0 then (if k = 0 then 1 else 2) else (if k = 0 then 3 else 4))
  else if j = 0 ∧ k = 0 then 5 else 1

/-- Haplotype library used for C5: haplotype j carries allele j at every locus. -/
def libC5 : ℕ → ℕ → ℕ := fun j _ => j

/-- C5: the claim states that, on a posterior produced by `diploidForwardBackward`,
bucket 0 at locus i is the posterior mass at locus i of hypothesis pairs with alleles
(0,0).  On the nLoci=2, nPat=nMat=2 posterior of the emissions `peC5` with
recombination rate 0 (posterior slice [[5/14,2/14],[3/14,4/14]] at both loci), the
source's decoder reads `hapEst[j,k,i]` against the (locus,pat,mat) layout and returns
1/7 for bucket 0 at locus 1, while the per-locus posterior mass of (0,0) there is 5/14
as the spec-faithful decoder computes. -/
theorem C5_probabilities_axis_bug :
    getDiploidProbabilities 2 2 (diploidForwardBackward 2 2 2 peC5 (fun _ => 0))
        libC5 libC5 0 1 = 1/7 ∧
      getDiploidProbabilitiesSpec 2 2 (diploidForwardBackward 2 2 2 peC5 (fun _ => 0))
        libC5 libC5 0 1 = 5/14 := by
  constructor <;>
    norm_num [getDiploidProbabilities, getDiploidProbabilitiesSpec, diploidForwardBackward,
      diploid_backward, backwardAux, diploid_forward, transmit, patMarginal, matMarginal,
      totalSum, sliceSum, peC5, libC5, Finset.sum_range_succ]

/-- C6: inside the sampler, at any locus i before the last, the sampling weights equal
the locus-i forward-combined distribution multiplied elementwise by the corrective
kernel: `(1-e)^2` only at the exact sampled pair of locus i+1, `(1-e)e/nMat` on every
cell sharing the sampled paternal index, `(1-e)e/nPat` on every cell sharing the
sampled maternal index, and `e^2/(nPat*nMat)` uniformly, with e the recombination rate
between loci i and i+1 (`recombination_rate[i+1]`). -/
theorem C6_sampler_weights (nLoci nPat nMat : ℕ) (forward_probs : ℕ → ℕ → ℕ → ℚ)
    (recombination_rate : ℕ → ℚ) (patIdx matIdx : ℕ → ℕ) (i j k : ℕ)
    (h : i < nLoci - 1) :
    diploidOneSample_pvals nLoci nPat nMat forward_probs recombination_rate
        patIdx matIdx i j k =
      forward_probs i j k *
        ((if j = patIdx (i + 1) ∧ k = matIdx (i + 1) then
            (1 - recombination_rate (i + 1))^2 else 0)
          + (if j = patIdx (i + 1) then
              (1 - recombination_rate (i + 1)) * recombination_rate (i + 1) / (nMat : ℚ)
            else 0)
          + (if k = matIdx (i + 1) then
              (1 - recombination_rate (i + 1)) * recombination_rate (i + 1) / (nPat : ℚ)
            else 0)
          + recombination_rate (i + 1) * recombination_rate (i + 1) /
              ((nPat : ℚ) * (nMat : ℚ))) := by
  unfold diploidOneSample_pvals
  rw [if_neg (Nat.ne_of_lt h)]
  unfold combine_backward_sampled_value backwardSampledKernel
  by_cases hj : j = patIdx (i + 1) <;> by_cases hk : k = matIdx (i + 1) <;>
    simp only [hj, hk, if_true, if_false, true_and, false_and, and_true, and_false,
      eq_self_iff_true, if_neg, ite_true, ite_false] <;>
    ring

/-- Witness for C6 at nLoci=3, nPat=nMat=2, locus 0, sampled pair (1,0) at locus 1,
recombination rate 1/3. -/
theorem C6_witness :
    (0 : ℕ) < 3 - 1 ∧
      diploidOneSample_pvals 3 2 2 (fun _ _ _ => 1/2) (fun _ => 1/3) (fun _ => 1)
          (fun _ => 0) 0 0 0 =
        (1/2 : ℚ) *
          ((if (0 : ℕ) = 1 ∧ (0 : ℕ) = 0 then (1 - (1/3 : ℚ))^2 else 0)
            + (if (0 : ℕ) = 1 then (1 - (1/3 : ℚ)) * (1/3) / ((2 : ℕ) : ℚ) else 0)
            + (if (0 : ℕ) = 0 then (1 - (1/3 : ℚ)) * (1/3) / ((2 : ℕ) : ℚ) else 0)
            + (1/3 : ℚ) * (1/3) / (((2 : ℕ) : ℚ) * ((2 : ℕ) : ℚ))) :=
  ⟨by decide,
    C6_sampler_weights 3 2 2 (fun _ _ _ => 1/2) (fun _ => 1/3) (fun _ => 1)
      (fun _ => 0) 0 0 0 (by decide)⟩

/-- C7: at a locus with a non-missing genotype where at least one phased allele
observation is missing (code 9), the emission weight of every hypothesis pair is
`1 - error^2` when the hypothesis paternal plus maternal allele equals the observed
genotype and `error^2` otherwise. -/
theorem C7_unphased_emission (indGeno indPatHap indMatHap : ℕ → ℕ)
    (paternalHaplotypes maternalHaplotypes : ℕ → ℕ → ℕ) (error : ℕ → ℚ) (i j k : ℕ)
    (hg : indGeno i ≠ 9) (hmiss : indPatHap i = 9 ∨ indMatHap i = 9) :
    getDiploidPointEstimates indGeno indPatHap indMatHap paternalHaplotypes
        maternalHaplotypes error i j k =
      if paternalHaplotypes j i + maternalHaplotypes k i = indGeno i then
        1 - (error i)^2
      else (error i)^2 := by
  have h2 : ¬(indPatHap i ≠ 9 ∧ indMatHap i ≠ 9) := by
    rcases hmiss with h | h <;> simp [h]
  unfold getDiploidPointEstimates
  rw [if_pos hg, if_neg h2]
  split_ifs <;> ring

/-- Witness for C7: genotype 1 observed, paternal phased observation missing, hypothesis
alleles (0,1) matching the genotype, error 1/10. -/
theorem C7_witness :
    ((9 : ℕ) = 9 ∨ (0 : ℕ) = 9) ∧
      getDiploidPointEstimates (fun _ => 1) (fun _ => 9) (fun _ => 0) (fun _ _ => 0)
          (fun _ _ => 1) (fun _ => 1/10) 0 0 0 =
        if (0 : ℕ) + 1 = 1 then 1 - ((1/10 : ℚ))^2 else ((1/10 : ℚ))^2 :=
  ⟨Or.inl rfl,
    C7_unphased_emission (fun _ => 1) (fun _ => 9) (fun _ => 0) (fun _ _ => 0)
      (fun _ _ => 1) (fun _ => 1/10) 0 0 0 (by decide) (Or.inl rfl)⟩

/-- C9: at a locus whose genotype observation is missing (code 9), the emission weight
is 1 for every hypothesis pair and any phased observations — the phased branch is only
reachable when the genotype itself is non-missing. -/
theorem C9_missing_genotype_emission (indGeno indPatHap indMatHap : ℕ → ℕ)
    (paternalHaplotypes maternalHaplotypes : ℕ → ℕ → ℕ) (error : ℕ → ℚ) (i j k : ℕ)
    (hg : indGeno i = 9) :
    getDiploidPointEstimates indGeno indPatHap indMatHap paternalHaplotypes
        maternalHaplotypes error i j k = 1 := by
  unfold getDiploidPointEstimates
  rw [if_neg (by simp [hg])]

/-- Witness for C9: genotype missing while both phased observations are non-missing. -/
theorem C9_witness :
    (9 : ℕ) = 9 ∧
      getDiploidPointEstimates (fun _ => 9) (fun _ => 0) (fun _ => 1) (fun _ _ => 0)
          (fun _ _ => 1) (fun _ => 1/10) 0 0 0 = 1 :=
  ⟨rfl,
    C9_missing_genotype_emission (fun _ => 9) (fun _ => 0) (fun _ => 1) (fun _ _ => 0)
      (fun _ _ => 1) (fun _ => 1/10) 0 0 0 rfl⟩

/-- C8: for any posterior tensor whose locus-i slice is non-negative and sums to 1 and
haplotype libraries with alleles in {0,1}, the dosage computed by `getDiploidDosages`
at locus i lies in [0,2]. -/
theorem C8_dosage_bounds (nPat nMat : ℕ) (hapEst : ℕ → ℕ → ℕ → ℚ)
    (paternalHaplotypes maternalHaplotypes : ℕ → ℕ → ℕ) (i : ℕ)
    (hpos : ∀ j ∈ Finset.range nPat, ∀ k ∈ Finset.range nMat, 0 ≤ hapEst i j k)
    (hsum : ∑ j ∈ Finset.range nPat, ∑ k ∈ Finset.range nMat, hapEst i j k = 1)
    (hpat : ∀ j ∈ Finset.range nPat, paternalHaplotypes j i ≤ 1)
    (hmat : ∀ k ∈ Finset.range nMat, maternalHaplotypes k i ≤ 1) :
    0 ≤ getDiploidDosages nPat nMat hapEst paternalHaplotypes maternalHaplotypes i ∧
      getDiploidDosages nPat nMat hapEst paternalHaplotypes maternalHaplotypes i ≤ 2 := by
  unfold getDiploidDosages
  constructor
  · refine Finset.sum_nonneg fun j hj => Finset.sum_nonneg fun k hk => ?_
    have h1 : (0 : ℚ) ≤ (paternalHaplotypes j i : ℚ) + (maternalHaplotypes k i : ℚ) := by
      positivity
    exact mul_nonneg (hpos j hj k hk) h1
  · calc
      ∑ j ∈ Finset.range nPat, ∑ k ∈ Finset.range nMat,
          hapEst i j k * ((paternalHaplotypes j i : ℚ) + (maternalHaplotypes k i : ℚ))
        ≤ ∑ j ∈ Finset.range nPat, ∑ k ∈ Finset.range nMat, hapEst i j k * 2 := by
          refine Finset.sum_le_sum fun j hj => Finset.sum_le_sum fun k hk => ?_
          have h1 : (paternalHaplotypes j i : ℚ) ≤ 1 := by exact_mod_cast hpat j hj
          have h2 : (maternalHaplotypes k i : ℚ) ≤ 1 := by exact_mod_cast hmat k hk
          have h3 : (paternalHaplotypes j i : ℚ) + (maternalHaplotypes k i : ℚ) ≤ 2 := by
            linarith
          exact mul_le_mul_of_nonneg_left h3 (hpos j hj k hk)
      _ = 2 := by
          simp only [← Finset.sum_mul]
          rw [hsum, one_mul]

/-- Witness for C8 at a 1×1 grid with posterior 1 and hypothesis alleles (0,1). -/
theorem C8_witness :
    0 ≤ getDiploidDosages 1 1 (fun _ _ _ => 1) (fun _ _ => 0) (fun _ _ => 1) 0 ∧
      getDiploidDosages 1 1 (fun _ _ _ => 1) (fun _ _ => 0) (fun _ _ => 1) 0 ≤ 2 :=
  C8_dosage_bounds 1 1 (fun _ _ _ => 1) (fun _ _ => 0) (fun _ _ => 1) 0
    (by intro j _ k _; norm_num)
    (by norm_num [Finset.sum_range_succ])
    (by intro j _; norm_num)
    (by intro k _; norm_num)

/-- C10: for any recombination rate e in [0,1], grid nPat × nMat, and sampled pair
inside the grid, the additive corrective kernel built by
`combine_backward_sampled_value` before the elementwise multiplication sums to exactly
1 over the full grid. -/
theorem C10_kernel_normalized (nPat nMat patHap matHap : ℕ) (e : ℚ)
    (hph : patHap < nPat) (hmh : matHap < nMat) (he0 : 0 ≤ e) (he1 : e ≤ 1) :
    ∑ j ∈ Finset.range nPat, ∑ k ∈ Finset.range nMat,
      backwardSampledKernel nPat nMat patHap matHap e j k = 1 := by
  have hp0 : 0 < nPat := Nat.lt_of_le_of_lt (Nat.zero_le _) hph
  have hm0 : 0 < nMat := Nat.lt_of_le_of_lt (Nat.zero_le _) hmh
  have hp : (nPat : ℚ) ≠ 0 := Nat.cast_ne_zero.mpr hp0.ne'
  have hm : (nMat : ℚ) ≠ 0 := Nat.cast_ne_zero.mpr hm0.ne'
  have inner : ∀ j ∈ Finset.range nPat,
      ∑ k ∈ Finset.range nMat, backwardSampledKernel nPat nMat patHap matHap e j k
        = (nMat : ℚ) * (e * e / ((nMat : ℚ) * (nPat : ℚ))) + (1 - e) * e / (nPat : ℚ)
          + (if j = patHap then (1 - e) * e + (1 - e)^2 else 0) := by
    intro j _
    by_cases hj : j = patHap
    · subst hj
      simp only [backwardSampledKernel, eq_self_iff_true, if_true, true_and,
        Finset.sum_add_distrib, Finset.sum_const, Finset.card_range, nsmul_eq_mul,
        Finset.sum_ite_eq', Finset.mem_range, hmh]
      field_simp
      ring
    · simp only [backwardSampledKernel, hj, false_and, if_false,
        Finset.sum_add_distrib, Finset.sum_const, Finset.card_range, nsmul_eq_mul,
        Finset.sum_ite_eq', Finset.mem_range, hmh, if_true, add_zero, zero_add,
        Finset.sum_const_zero]
  rw [Finset.sum_congr rfl inner, Finset.sum_add_distrib, Finset.sum_add_distrib,
    Finset.sum_const, Finset.card_range, nsmul_eq_mul, Finset.sum_const,
    Finset.card_range, nsmul_eq_mul,
    Finset.sum_ite_eq' (Finset.range nPat) patHap, if_pos (Finset.mem_range.mpr hph)]
  field_simp
  ring

/-- Witness for C10 at nPat=2, nMat=3, sampled pair (1,2), e=1/3. -/
theorem C10_witness :
    ((1 : ℕ) < 2 ∧ (2 : ℕ) < 3 ∧ (0 : ℚ) ≤ 1/3 ∧ (1/3 : ℚ) ≤ 1) ∧
      ∑ j ∈ Finset.range 2, ∑ k ∈ Finset.range 3,
        backwardSampledKernel 2 3 1 2 (1/3) j k = 1 :=
  ⟨⟨by decide, by decide, by norm_num, by norm_num⟩,
    C10_kernel_normalized 2 3 1 2 (1/3) (by decide) (by decide) (by norm_num)
      (by norm_num)⟩
